import Mathlib

/-!
# Verification of the CTR drawing generator (`src/app.py`)

This file shallowly embeds the core of `app.py` — the multi-sheet text parser
`parse_multi_sheet_txt` and the structural part of the PDF layout pipeline
`process_multi_sheet_pdf` (sorting, grouping into row chunks, run-length
bracket grouping, pagination) — and proves the specification claims about it.

Modelling conventions:
* Python strings are modelled as `String` / `List Char`; all character-level
  operations (`strip`, `upper`, `split`, substring tests, the regular
  expression scan) are re-implemented as structural recursions over
  `List Char`, because the embedded program only ever applies them to ASCII
  text.  `str.strip` / regex `\s` use the six ASCII whitespace characters.
* Python floats (the ReportLab A3 page-size constants) are modelled as exact
  rationals; the floor computations involved are far from integer boundaries,
  so exact rational arithmetic agrees with IEEE double arithmetic here.
* All embedded functions are total; `app.py`'s parsing never raises, which
  corresponds to these functions being plain total functions.
-/

namespace App

/-- The whitespace characters stripped by Python's `str.strip` and matched by
the regex class `\s` (ASCII range, which is all that occurs in this format). -/
def pyWs (c : Char) : Bool :=
  c = ' ' || c = '\t' || c = '\n' || c = '\r' || c = '\x0b' || c = '\x0c'

/-- Python `str.strip`: drop leading and trailing whitespace. -/
def trimChars (cs : List Char) : List Char :=
  ((cs.dropWhile pyWs).reverse.dropWhile pyWs).reverse

/-- Python `str.upper` (ASCII). -/
def upChars (cs : List Char) : List Char := cs.map Char.toUpper

/-- Repack a character list as a `String`. -/
def ofChars : List Char → String := String.mk

/-- Python `str.split(sep)` for a one-character separator (keeps empty parts,
like Python). -/
def splitOnChar (sep : Char) : List Char → List (List Char)
  | [] => [[]]
  | c :: t =>
    match splitOnChar sep t with
    | [] => [[]]
    | g :: gs => if c = sep then [] :: g :: gs else (c :: g) :: gs

/-- Python `int` on a non-empty digit string. -/
def digitsToNat (ds : List Char) : Nat :=
  ds.foldl (fun n c => 10 * n + (c.toNat - 48)) 0

/-- Python `re.search(r'\d+', s)` followed by `int(...)`: the numeric value of
the first maximal run of digits, if any. -/
def firstDigitRun : List Char → Option Nat
  | [] => none
  | c :: t =>
    if c.isDigit then some (digitsToNat (c :: t.takeWhile Char.isDigit))
    else firstDigitRun t

/-- Python's substring test `needle in hay`. -/
def subOf (needle : List Char) : List Char → Bool
  | [] => needle.isEmpty
  | c :: t => needle.isPrefixOf (c :: t) || subOf needle t

/-- Python `s.split(":", 1)[1]`: everything after the first colon. -/
def afterColon (cs : List Char) : List Char :=
  (cs.dropWhile (fun c => c != ':')).drop 1

/-- One match of the row-range pattern `([^,\[]+)\[\s*(\d+)\s+to\s+(\d+)\s*\]`
(`app.py` line 93): label text, lower bound, upper bound. -/
structure RangeMatch where
  label : List Char
  lo : Nat
  hi : Nat
deriving DecidableEq

/-- Characters allowed in the label part of the pattern: anything but a comma
or an opening bracket (`[^,\[]`). -/
def isLabelChar (c : Char) : Bool := c != ',' && c != '['

/-- Attempt the pattern `([^,\[]+)\[\s*(\d+)\s+to\s+(\d+)\s*\]` (with `re.I`,
so `to` is case-insensitive) anchored at the head of `cs`.  The greedy
sub-patterns cannot backtrack productively because their character classes are
pairwise disjoint with what must follow, so maximal-run munching is exact.
On success, returns the match and the unconsumed remainder. -/
def tryMatch (cs : List Char) : Option (RangeMatch × List Char) :=
  let lab := cs.takeWhile isLabelChar
  if lab.isEmpty then none
  else
    match cs.dropWhile isLabelChar with
    | '[' :: r1 =>
      let r2 := r1.dropWhile pyWs
      let d1 := r2.takeWhile Char.isDigit
      if d1.isEmpty then none
      else
        let r3 := r2.dropWhile Char.isDigit
        if (r3.takeWhile pyWs).isEmpty then none
        else
          match r3.dropWhile pyWs with
          | t :: o :: r5 =>
            if t.toUpper == 'T' && o.toUpper == 'O' then
              if (r5.takeWhile pyWs).isEmpty then none
              else
                let r6 := r5.dropWhile pyWs
                let d2 := r6.takeWhile Char.isDigit
                if d2.isEmpty then none
                else
                  match (r6.dropWhile Char.isDigit).dropWhile pyWs with
                  | ']' :: r8 => some (⟨lab, digitsToNat d1, digitsToNat d2⟩, r8)
                  | _ => none
            else none
          | _ => none
    | _ => none

/-- The `re.findall` driver: try a match at every position, left to right,
consuming matched text (non-overlapping matches).  Each step consumes at least
one character, so `fuel = cs.length` (see `findRanges`) never runs out. -/
def scanRanges : Nat → List Char → List RangeMatch
  | 0, _ => []
  | _ + 1, [] => []
  | fuel + 1, c :: t =>
    match tryMatch (c :: t) with
    | some (m, rest) => m :: scanRanges fuel rest
    | none => scanRanges fuel t

/-- Model of `re.findall(pattern, s, re.I)` for the row-range pattern. -/
def findRanges (cs : List Char) : List RangeMatch := scanRanges cs.length cs

/-- Python `str(i).zfill(2)`. -/
def zfill2 (n : Nat) : String :=
  let s := toString n
  if 2 ≤ s.length then s else "0" ++ s

/-- One parsed terminal record (a row of the `current_rows` dicts built at
`app.py` lines 99-102). -/
structure RowRecord where
  rowId : String
  function : String
  cableDetail : String
  terminalNumber : String
deriving DecidableEq

/-- The keyword list of `app.py` line 89; a last comma-part containing any of
these as a substring is not treated as a cable identifier. -/
def termKeywords : List (List Char) :=
  ["SPARE".data, "RESERVED".data, "NI".data, "E3".data, "TERMINAL".data,
   "BLOCK".data, "LINK".data, "RESERVE".data, "SP".data]

/-- Range expansion (`app.py` lines 96-102): one record per integer in
`[lo, hi]` (empty when `hi < lo`, mirroring Python's `range(lo, hi+1)`),
carrying the stripped, upper-cased label and the zero-padded terminal
number. -/
def expandMatch (rid cable : String) (m : RangeMatch) : List RowRecord :=
  (List.range' m.lo (m.hi + 1 - m.lo)).map fun i =>
    ⟨rid, ofChars (upChars (trimChars m.label)), cable, zfill2 i⟩

/-- The comma-parts of a row line, each stripped (`app.py` line 84). -/
def lineParts (line : List Char) : List (List Char) :=
  (splitOnChar ',' line).map trimChars

/-- The `middle_part` string (`app.py` line 87): the stripped parts after the row id,
re-joined with commas. -/
def middleOf (line : List Char) : List Char :=
  List.intercalate [','] ((lineParts line).drop 1)

/-- The `cable_detail` value (`app.py` lines 88-91): the upper-cased last part, provided
the line has at least three parts and no keyword of `termKeywords` occurs in
the last part as a substring; otherwise the empty string. -/
def lineCable (parts : List (List Char)) : String :=
  if (!(termKeywords.any fun k => subOf k (upChars (parts.getLastD [])))) &&
      decide (3 ≤ parts.length)
  then ofChars (upChars (parts.getLastD [])) else ""

/-- The records contributed by one (already stripped) row-specification line
(`app.py` lines 84-102): requires at least two comma-parts; resolves the cable
detail from the last part; expands every range match found in the re-joined
remainder. -/
def lineRecords (line : List Char) : List RowRecord :=
  if 2 ≤ (lineParts line).length then
    (findRanges (middleOf line)).flatMap
      (expandMatch (ofChars (upChars ((lineParts line).headD [])))
        (lineCable (lineParts line)))
  else []

/-- The metadata dictionary `current_meta` (`app.py` line 61). -/
structure MetaData where
  sheet : Nat
  station : String
  location : String
  sip : String
  heading : String
deriving DecidableEq

/-- One finalized sheet: a snapshot of the metadata plus the accumulated
rows. -/
structure SheetData where
  meta : MetaData
  rows : List RowRecord
deriving DecidableEq

/-- The mutable parse state of `parse_multi_sheet_txt`: finalized sheets, the
current metadata, and the rows accumulated since the last boundary. -/
structure ParseState where
  sheets : List SheetData
  meta : MetaData
  rows : List RowRecord
deriving DecidableEq

/-- Initial metadata (`app.py` line 61). -/
def initMeta : MetaData := ⟨1, "", "", "", "TERMINAL CHART"⟩

/-- Initial parse state (`app.py` lines 60-62). -/
def initState : ParseState := ⟨[], initMeta, []⟩

/-- Finalize the current sheet if it has accumulated any rows (`app.py`
lines 70-72 and 103): a sheet with no rows is NOT appended. -/
def flushSheet (s : ParseState) : ParseState :=
  if s.rows.isEmpty then s else ⟨s.sheets ++ [⟨s.meta, s.rows⟩], s.meta, []⟩

/-- The body of the per-line loop of `parse_multi_sheet_txt` (`app.py`
lines 65-102), applied to the already-stripped line: skip blank lines,
dispatch on the (upper-cased) keyword prefix, otherwise treat the line as a
row specification. -/
def processTrimmed (s : ParseState) (line : List Char) : ParseState :=
  if line.isEmpty then s
  else if "SHEET:".data.isPrefixOf (upChars line) then
    match firstDigitRun line with
    | some n => { flushSheet s with meta := { (flushSheet s).meta with sheet := n } }
    | none => flushSheet s
  else if "STATION:".data.isPrefixOf (upChars line) then
    { s with meta := { s.meta with station := ofChars (trimChars (afterColon line)) } }
  else if "LOCATION:".data.isPrefixOf (upChars line) then
    { s with meta := { s.meta with location := ofChars (trimChars (afterColon line)) } }
  else if "SIP:".data.isPrefixOf (upChars line) then
    { s with meta := { s.meta with sip := ofChars (trimChars (afterColon line)) } }
  else if "HEADING:".data.isPrefixOf (upChars line) then
    { s with meta := { s.meta with heading := ofChars (trimChars (afterColon line)) } }
  else { s with rows := s.rows ++ lineRecords line }

/-- One iteration of the line loop (`app.py` lines 64-65: take the raw line,
strip it, process it). -/
def processLine (s : ParseState) (rawLine : String) : ParseState :=
  processTrimmed s (trimChars rawLine.data)

/-- Model of `parse_multi_sheet_txt` on an explicit list of lines. -/
def parseLines (ls : List String) : List SheetData :=
  (flushSheet (ls.foldl processLine initState)).sheets

/-- Model of `parse_multi_sheet_txt` (`app.py` lines 59-104). -/
def parse_multi_sheet_txt (raw : String) : List SheetData :=
  parseLines ((splitOnChar '\n' raw.data).map ofChars)

/-!
## The layout pipeline (`process_multi_sheet_pdf`, `app.py` lines 146-196)

The PDF canvas calls are not modelled; what is modelled is every layout
decision: the sort of the sheet's records, the grouping by row id, the
chunking of each row into page rows, the pagination state machine, and the
run-length bracket groups computed for each chunk.
-/

/-- Strict lexicographic comparison of character lists by code point —
Python's `<` on strings, which is the string order `pandas.sort_values`
uses for the `Row ID` column. -/
def lexLtChars : List Char → List Char → Bool
  | [], [] => false
  | [], _ :: _ => true
  | _ :: _, [] => false
  | a :: as, b :: bs =>
    if a.toNat < b.toNat then true
    else if b.toNat < a.toNat then false
    else lexLtChars as bs

/-- The numeric sort key of line 155: the first run of digits in the terminal
number, else 0. -/
def sortKey (r : RowRecord) : ℕ := (firstDigitRun r.terminalNumber.data).getD 0

/-- The total preorder `(Row ID, sort_key)` ascending used by
`df.sort_values(by=['Row ID', 'sort_key'])` at line 156. -/
def rowLe (a b : RowRecord) : Prop :=
  if a.rowId = b.rowId then sortKey a ≤ sortKey b
  else lexLtChars a.rowId.data b.rowId.data = true

instance : DecidableRel rowLe := fun a b => by unfold rowLe; infer_instance

/-- The sorting step of lines 155-156, modelled by a deterministic stable
comparison sort over the `(Row ID, sort_key)` preorder. -/
def sortRows (rows : List RowRecord) : List RowRecord := rows.insertionSort rowLe

/-- Keys in order of first appearance — the group order of
`df.groupby('Row ID', sort=False)` (line 165). -/
def firstSeenKeys (ks : List String) : List String :=
  ks.foldl (fun acc k => if k ∈ acc then acc else acc ++ [k]) []

/-- Model of `df.groupby('Row ID', sort=False)`: for each key in first-seen order, all
records with that row id, in dataframe order. -/
def groupByRowId (rows : List RowRecord) : List (String × List RowRecord) :=
  (firstSeenKeys (rows.map (·.rowId))).map fun k => (k, rows.filter (fun r => r.rowId == k))

/-- The chunking of line 167: `[terms[i:i+n] for i in range(0, len(terms), n)]`
(meaningful for `n ≥ 1`; the program only uses `n = term_per_row = 30`). -/
def chunksOf {α : Type} : ℕ → List α → List (List α)
  | _, [] => []
  | 0, _ :: _ => []
  | n + 1, x :: t => ((x :: t).take (n + 1)) :: chunksOf (n + 1) ((x :: t).drop (n + 1))
termination_by n l => l.length
decreasing_by simp [List.length_drop]; omega

/-- The `landscape(A3)` width in points: 420 mm = 420·72/25.4 pt, exactly. -/
def pageWidth : ℚ := 151200 / 127

/-- The `landscape(A3)` height in points: 297 mm = 297·72/25.4 pt, exactly. -/
def pageHeight : ℚ := 106920 / 127

/-- The constant `PAGE_MARGIN` (line 21). -/
def PAGE_MARGIN : ℚ := 20

/-- The constant `SAFETY_OFFSET` (line 22). -/
def SAFETY_OFFSET : ℚ := 85 / 2

/-- The constant `FIXED_GAP` (line 23). -/
def FIXED_GAP : ℚ := 33

/-- The constant `ROW_HEIGHT_SPACING` (line 25). -/
def ROW_HEIGHT_SPACING : ℚ := 105

/-- The footer divider position `info_x` (line 159). -/
def infoX : ℚ := PAGE_MARGIN + (pageWidth - 2 * PAGE_MARGIN) / 15

/-- The constant `term_per_row` (line 160): `int((width - info_x - SAFETY_OFFSET - 40) //
FIXED_GAP)`.  The operands are ≈30.65, far from an integer boundary, so the
exact rational floor agrees with the floating-point computation. -/
def term_per_row : ℕ := (⌊(pageWidth - infoX - SAFETY_OFFSET - 40) / FIXED_GAP⌋).toNat

/-- The normalisation of a selector value in the bracket-group pass
(line 186): `str(...).upper().strip()`. -/
def normLabel (s : String) : List Char := trimChars (upChars s.data)

/-- The run-length bracket-grouping loop of lines 183-193, scanning the
selector values of one chunk starting at index `i`: an empty normalised value
is skipped; a non-empty one opens a group that extends over the immediately
following entries with the same normalised value, emitting
`(start index, end index, label)`. -/
def bracketGroups : ℕ → List String → List (ℕ × ℕ × String)
  | _, [] => []
  | i, x :: xs =>
    let t := normLabel x
    if t.isEmpty then bracketGroups (i + 1) xs
    else
      let run := xs.takeWhile fun y => normLabel y = t
      (i, i + run.length, ofChars t) ::
        bracketGroups (i + run.length + 1) (xs.dropWhile fun y => normLabel y = t)
termination_by i l => l.length
decreasing_by
  · simp
  · have h := (@List.dropWhile_sublist _ xs (fun y => decide (normLabel y = normLabel x))).length_le
    simp only [List.length_cons]
    omega

/-- The per-sheet pagination state: vertical cursor, row count on the current
page, rendered sheet number, chunks drawn on the current page, and the pages
already closed by a page break (lines 162, 168-172, 194). -/
structure LayoutState where
  yCurr : ℚ
  rowsOnPage : ℕ
  sheetNo : ℕ
  curPage : List (List RowRecord)
  donePages : List (List (List RowRecord))
deriving DecidableEq

/-- The top-of-page content line `height - 160` (lines 162 and 172). -/
def topY : ℚ := pageHeight - 160

/-- Drawing one chunk (lines 168-194): if the current page already holds 6
row-chunks, close it (page break, sheet number + 1, template redraw, cursor
and count reset); then draw the chunk on the current page, advance the cursor
down by `ROW_HEIGHT_SPACING` and count the row. -/
def stepChunk (st : LayoutState) (ch : List RowRecord) : LayoutState :=
  let s1 : LayoutState :=
    if 6 ≤ st.rowsOnPage then
      ⟨topY, 0, st.sheetNo + 1, [], st.donePages ++ [st.curPage]⟩
    else st
  ⟨s1.yCurr - ROW_HEIGHT_SPACING, s1.rowsOnPage + 1, s1.sheetNo, s1.curPage ++ [ch], s1.donePages⟩

/-- The pagination state at the start of a sheet (lines 162-163). -/
def initLayout (sheetNo : ℕ) : LayoutState := ⟨topY, 0, sheetNo, [], []⟩

/-- The chunk loop of one sheet (lines 165-194), folded over the sheet's
chunk sequence. -/
def renderSheetChunks (sheetNo : ℕ) (chunks : List (List RowRecord)) : LayoutState :=
  chunks.foldl stepChunk (initLayout sheetNo)

/-- All pages of one sheet: the pages closed by page breaks plus the final
page flushed by the trailing `showPage` (line 195). -/
def sheetPages (st : LayoutState) : List (List (List RowRecord)) :=
  st.donePages ++ [st.curPage]

/-- The ordered chunk sequence of one sheet: sort, group by row id, chunk
each group's terminal list (lines 155-167). -/
def sheetChunks (rows : List RowRecord) : List (List RowRecord) :=
  ((groupByRowId (sortRows rows)).map fun g => chunksOf term_per_row g.2).flatten

/-- The observable drawing content of one chunk: the terminal number labels,
and the bracket groups of the function pass (above the row) and the cable
pass (below the row) computed at lines 183-193. -/
structure ChunkRender where
  terminals : List String
  funcGroups : List (ℕ × ℕ × String)
  cableGroups : List (ℕ × ℕ × String)
deriving DecidableEq

/-- Render one chunk's observable content. -/
def renderChunk (ch : List RowRecord) : ChunkRender :=
  ⟨ch.map (·.terminalNumber),
   bracketGroups 0 (ch.map (·.function)),
   bracketGroups 0 (ch.map (·.cableDetail))⟩

/-- The observable rendering of one sheet produced by
`process_multi_sheet_pdf`: per row id, the rendered chunks, plus the final
pagination state. -/
def renderedSheet (m : MetaData) (rows : List RowRecord) :
    List (String × List ChunkRender) × LayoutState :=
  ((groupByRowId (sortRows rows)).map fun g =>
      (g.1, (chunksOf term_per_row g.2).map renderChunk),
   renderSheetChunks m.sheet (sheetChunks rows))

/-- Whether a raw line is a `STATION:` declaration (the condition of
`app.py` line 75). -/
def isStationLine (l : String) : Bool :=
  "STATION:".data.isPrefixOf (upChars (trimChars l.data))

/-- Whether a raw line is any of the five boundary/metadata directives
(the conditions of `app.py` lines 69-81). -/
def isDirective (l : String) : Bool :=
  let u := upChars (trimChars l.data)
  "SHEET:".data.isPrefixOf u || "STATION:".data.isPrefixOf u ||
    "LOCATION:".data.isPrefixOf u || "SIP:".data.isPrefixOf u ||
    "HEADING:".data.isPrefixOf u

/-!
## Order lemmas for the sort relation
-/

theorem lexLtChars_irrefl : ∀ cs, lexLtChars cs cs = false
  | [] => rfl
  | _ :: t => by simp [lexLtChars, lexLtChars_irrefl t]

theorem lexLtChars_trans : ∀ as bs cs : List Char,
    lexLtChars as bs = true → lexLtChars bs cs = true → lexLtChars as cs = true
  | [], [], _, h1, _ => by simp [lexLtChars] at h1
  | [], _ :: _, [], _, h2 => by simp [lexLtChars] at h2
  | [], _ :: _, _ :: _, _, _ => rfl
  | _ :: _, [], _, h1, _ => by simp [lexLtChars] at h1
  | _ :: _, _ :: _, [], _, h2 => by simp [lexLtChars] at h2
  | a :: as, b :: bs, c :: cs, h1, h2 => by
    simp only [lexLtChars] at h1 h2 ⊢
    rcases Nat.lt_trichotomy a.toNat b.toNat with hab | hab | hab <;>
      rcases Nat.lt_trichotomy b.toNat c.toNat with hbc | hbc | hbc
    · simp [show a.toNat < c.toNat by omega]
    · simp [show a.toNat < c.toNat by omega]
    · simp [show ¬ b.toNat < c.toNat by omega, hbc] at h2
    · simp [show a.toNat < c.toNat by omega]
    · simp only [show ¬ a.toNat < b.toNat by omega, show ¬ b.toNat < a.toNat by omega,
        if_false, ite_false, if_neg] at h1
      simp only [show ¬ b.toNat < c.toNat by omega, show ¬ c.toNat < b.toNat by omega,
        if_false, ite_false, if_neg] at h2
      simp only [show ¬ a.toNat < c.toNat by omega, show ¬ c.toNat < a.toNat by omega,
        if_false, ite_false, if_neg]
      exact lexLtChars_trans as bs cs h1 h2
    · simp [show ¬ b.toNat < c.toNat by omega, hbc] at h2
    · simp [show ¬ a.toNat < b.toNat by omega, hab] at h1
    · simp [show ¬ a.toNat < b.toNat by omega, hab] at h1
    · simp [show ¬ a.toNat < b.toNat by omega, hab] at h1

theorem lexLtChars_connex : ∀ as bs : List Char,
    as ≠ bs → lexLtChars as bs = true ∨ lexLtChars bs as = true
  | [], [] => fun h => absurd rfl h
  | [], _ :: _ => fun _ => Or.inl rfl
  | _ :: _, [] => fun _ => Or.inr rfl
  | a :: as, b :: bs => fun h => by
    rcases Nat.lt_trichotomy a.toNat b.toNat with hc | hc | hc
    · left; simp [lexLtChars, hc]
    · have ha : a = b := Char.eq_of_val_eq (UInt32.ext hc)
      subst ha
      have hne : as ≠ bs := fun he => h (by rw [he])
      rcases lexLtChars_connex as bs hne with ht | ht
      · left; simp [lexLtChars, ht]
      · right; simp [lexLtChars, ht]
    · right; simp [lexLtChars, hc]

instance : IsTotal RowRecord rowLe := by
  constructor
  intro a b
  unfold rowLe
  by_cases h : a.rowId = b.rowId
  · simp [h]
    exact Nat.le_total _ _
  · have h' : b.rowId ≠ a.rowId := fun he => h he.symm
    have hd : a.rowId.data ≠ b.rowId.data := fun he => h (String.ext he)
    rw [if_neg h, if_neg h']
    exact lexLtChars_connex _ _ hd

instance : IsTrans RowRecord rowLe := by
  constructor
  intro a b c hab hbc
  unfold rowLe at hab hbc ⊢
  by_cases h1 : a.rowId = b.rowId <;> by_cases h2 : b.rowId = c.rowId
  · rw [if_pos h1] at hab
    rw [if_pos h2] at hbc
    rw [if_pos (h1.trans h2)]
    exact le_trans hab hbc
  · rw [if_pos h1] at hab
    rw [if_neg h2] at hbc
    have hac : a.rowId ≠ c.rowId := fun he => h2 (h1.symm.trans he)
    rw [if_neg hac, show a.rowId.data = b.rowId.data from congrArg String.data h1]
    exact hbc
  · rw [if_neg h1] at hab
    rw [if_pos h2] at hbc
    have hac : a.rowId ≠ c.rowId := fun he => h1 (he.trans h2.symm)
    rw [if_neg hac, show c.rowId.data = b.rowId.data from congrArg String.data h2.symm]
    exact hab
  · rw [if_neg h1] at hab
    rw [if_neg h2] at hbc
    have hac : a.rowId ≠ c.rowId := by
      intro he
      have h1' := hab
      rw [show a.rowId.data = c.rowId.data from congrArg String.data he] at h1'
      have hbb := lexLtChars_trans _ _ _ hbc h1'
      rw [lexLtChars_irrefl] at hbb
      exact Bool.false_ne_true hbb
    rw [if_neg hac]
    exact lexLtChars_trans _ _ _ hab hbc

/-- The function `sortRows` really sorts with respect to the `(Row ID, sort_key)`
preorder. -/
theorem sortRows_sorted (rows : List RowRecord) : List.Sorted rowLe (sortRows rows) :=
  List.sorted_insertionSort rowLe rows

/-- Sorting an already-sorted record list changes nothing. -/
theorem sortRows_idem (rows : List RowRecord) : sortRows (sortRows rows) = sortRows rows :=
  List.Sorted.insertionSort_eq (sortRows_sorted rows)

/-!
## Chunking lemmas
-/

theorem chunksOf_flatten {α : Type} :
    ∀ (m : ℕ) (l : List α), m ≠ 0 → (chunksOf m l).flatten = l := by
  intro m l
  induction m, l using chunksOf.induct with
  | case1 m => intro _; simp [chunksOf]
  | case2 x t => intro h; exact absurd rfl h
  | case3 n x t ih =>
    intro _
    rw [chunksOf, List.flatten_cons, ih (by omega)]
    exact List.take_append_drop _ _

theorem mem_chunksOf {α : Type} :
    ∀ (m : ℕ) (l : List α) (c : List α), c ∈ chunksOf m l → c ≠ [] ∧ c.length ≤ m := by
  intro m l
  induction m, l using chunksOf.induct with
  | case1 m => simp [chunksOf]
  | case2 x t => simp [chunksOf]
  | case3 n x t ih =>
    intro c hc
    rw [chunksOf] at hc
    rcases List.mem_cons.mp hc with h | h
    · subst h
      exact ⟨by simp [List.take_cons], List.length_take_le _ _⟩
    · exact ih c h

theorem chunksOf_ne_nil {α : Type} (m : ℕ) (x : α) (t : List α) :
    chunksOf (m + 1) (x :: t) ≠ [] := by
  rw [chunksOf]; simp

theorem dropLast_chunksOf {α : Type} :
    ∀ (m : ℕ) (l : List α) (c : List α), c ∈ (chunksOf m l).dropLast → c.length = m := by
  intro m l
  induction m, l using chunksOf.induct with
  | case1 m => simp [chunksOf]
  | case2 x t => simp [chunksOf]
  | case3 n x t ih =>
    intro c hc
    rw [chunksOf] at hc
    by_cases hdrop : (x :: t).drop (n + 1) = []
    · rw [hdrop] at hc
      simp [chunksOf] at hc
    · have hne : chunksOf (n + 1) ((x :: t).drop (n + 1)) ≠ [] := by
        obtain ⟨y, ys, hys⟩ := List.exists_cons_of_ne_nil hdrop
        rw [hys]
        exact chunksOf_ne_nil _ _ _
      rw [List.dropLast_cons_of_ne_nil hne] at hc
      rcases List.mem_cons.mp hc with h | h
      · subst h
        have hlen : n + 1 < (x :: t).length := by
          by_contra hle
          exact hdrop (List.drop_eq_nil_of_le (by omega))
        rw [List.length_take]
        omega
      · exact ih c h

theorem chunksOf_of_length_le {α : Type} (m : ℕ) (l : List α) (h0 : l ≠ [])
    (h : l.length ≤ m + 1) : chunksOf (m + 1) l = [l] := by
  cases l with
  | nil => exact absurd rfl h0
  | cons x t =>
    rw [chunksOf, List.take_of_length_le h, List.drop_eq_nil_of_le h]
    simp [chunksOf]

/-!
## Bracket-grouping lemmas
-/

theorem takeWhile_replicate_append {α : Type} (p : α → Bool) (a b : α) (rest : List α)
    (ha : p a = true) (hb : p b = false) :
    ∀ k, (List.replicate k a ++ b :: rest).takeWhile p = List.replicate k a
  | 0 => by simp [hb]
  | k + 1 => by
    simp [List.replicate_succ, ha, takeWhile_replicate_append p a b rest ha hb k]

theorem dropWhile_replicate_append {α : Type} (p : α → Bool) (a b : α) (rest : List α)
    (ha : p a = true) (hb : p b = false) :
    ∀ k, (List.replicate k a ++ b :: rest).dropWhile p = b :: rest
  | 0 => by simp [hb]
  | k + 1 => by
    simp [List.replicate_succ, ha, dropWhile_replicate_append p a b rest ha hb k]

theorem bracketGroups_replicate (a : String) (ht : normLabel a ≠ []) (i k : ℕ) :
    bracketGroups i (List.replicate (k + 1) a) = [(i, i + k, ofChars (normLabel a))] := by
  rw [List.replicate_succ, bracketGroups]
  have hE : (normLabel a).isEmpty = false := by
    cases hn : normLabel a with
    | nil => exact absurd hn ht
    | cons c cs => rfl
  rw [if_neg (by simp [hE])]
  have hp : (fun y => decide (normLabel y = normLabel a)) a = true := by simp
  rw [List.takeWhile_replicate, if_pos hp, List.dropWhile_replicate, if_pos hp]
  simp [bracketGroups, List.length_replicate]

theorem bracketGroups_cons_empty (i : ℕ) (x : String) (xs : List String)
    (hx : normLabel x = []) : bracketGroups i (x :: xs) = bracketGroups (i + 1) xs := by
  rw [bracketGroups, if_pos (by simp [hx])]

theorem bracketGroups_two_runs (a : String) (ht : normLabel a ≠ []) (i k₁ k₂ : ℕ) :
    bracketGroups i (List.replicate (k₁ + 1) a ++ "" :: List.replicate (k₂ + 1) a) =
      [(i, i + k₁, ofChars (normLabel a)),
       (i + k₁ + 2, i + k₁ + 2 + k₂, ofChars (normLabel a))] := by
  have hE : (normLabel a).isEmpty = false := by
    cases hn : normLabel a with
    | nil => exact absurd hn ht
    | cons c cs => rfl
  have hp : (fun y => decide (normLabel y = normLabel a)) a = true := by simp
  have hq : (fun y => decide (normLabel y = normLabel a)) "" = false := by
    simp only [decide_eq_false_iff_not]
    intro hc
    exact ht (by rw [← hc]; rfl)
  rw [List.replicate_succ, List.cons_append, bracketGroups, if_neg (by simp [hE])]
  rw [takeWhile_replicate_append _ a "" _ hp hq, dropWhile_replicate_append _ a "" _ hp hq]
  simp only [List.length_replicate]
  rw [bracketGroups_cons_empty _ _ _ (by rfl)]
  rw [bracketGroups_replicate a ht]

theorem stepChunk_inv (sn : ℕ) (st : LayoutState) (ch : List RowRecord)
    (h : st.rowsOnPage = st.curPage.length ∧ st.curPage.length ≤ 6 ∧
      (∀ p ∈ st.donePages, p.length ≤ 6) ∧ st.sheetNo = sn + st.donePages.length) :
    (stepChunk st ch).rowsOnPage = (stepChunk st ch).curPage.length ∧
      (stepChunk st ch).curPage.length ≤ 6 ∧
      (∀ p ∈ (stepChunk st ch).donePages, p.length ≤ 6) ∧
      (stepChunk st ch).sheetNo = sn + (stepChunk st ch).donePages.length := by
  obtain ⟨h1, h2, h3, h4⟩ := h
  unfold stepChunk
  split
  · refine ⟨by simp, by simp, ?_, ?_⟩
    · intro p hp
      rcases List.mem_append.mp hp with hp | hp
      · exact h3 p hp
      · rw [List.mem_singleton.mp hp]
        exact h2
    · simp [h4, List.length_append]
      omega
  · rename_i hr
    refine ⟨by simp [h1], by simp; omega, h3, h4⟩

theorem foldl_stepChunk_inv (sn : ℕ) :
    ∀ (chunks : List (List RowRecord)) (st : LayoutState),
      (st.rowsOnPage = st.curPage.length ∧ st.curPage.length ≤ 6 ∧
        (∀ p ∈ st.donePages, p.length ≤ 6) ∧ st.sheetNo = sn + st.donePages.length) →
      ((chunks.foldl stepChunk st).rowsOnPage = (chunks.foldl stepChunk st).curPage.length ∧
        (chunks.foldl stepChunk st).curPage.length ≤ 6 ∧
        (∀ p ∈ (chunks.foldl stepChunk st).donePages, p.length ≤ 6) ∧
        (chunks.foldl stepChunk st).sheetNo = sn + (chunks.foldl stepChunk st).donePages.length)
  | [], _, h => h
  | ch :: chunks, st, h =>
    foldl_stepChunk_inv sn chunks (stepChunk st ch) (stepChunk_inv sn st ch h)

/-!
## Parse-state lemmas
-/

theorem flushSheet_meta (s : ParseState) : (flushSheet s).meta = s.meta := by
  unfold flushSheet
  split <;> rfl

theorem flushSheet_sheets (s : ParseState) :
    ∀ sh ∈ (flushSheet s).sheets, sh ∈ s.sheets ∨ sh.meta = s.meta := by
  unfold flushSheet
  split
  · exact fun sh h => Or.inl h
  · intro sh h
    rcases List.mem_append.mp h with h | h
    · exact Or.inl h
    · right
      rw [List.mem_singleton.mp h]

theorem flushSheet_rows_ne (s : ParseState) (hs : ∀ sh ∈ s.sheets, sh.rows ≠ []) :
    ∀ sh ∈ (flushSheet s).sheets, sh.rows ≠ [] := by
  unfold flushSheet
  split
  · exact hs
  · rename_i hrows
    intro sh h
    rcases List.mem_append.mp h with h | h
    · exact hs sh h
    · rw [List.mem_singleton.mp h]
      show s.rows ≠ []
      exact fun he => hrows (by simp [he])

theorem processLine_sheets (s : ParseState) (l : String) :
    ∀ sh ∈ (processLine s l).sheets, sh ∈ s.sheets ∨ sh.meta = s.meta := by
  intro sh hsh
  unfold processLine processTrimmed at hsh
  split at hsh
  · exact Or.inl hsh
  · split at hsh
    · split at hsh
      · exact flushSheet_sheets s sh hsh
      · exact flushSheet_sheets s sh hsh
    · split at hsh
      · exact Or.inl hsh
      · split at hsh
        · exact Or.inl hsh
        · split at hsh
          · exact Or.inl hsh
          · split at hsh
            · exact Or.inl hsh
            · exact Or.inl hsh

theorem processLine_rows_ne (s : ParseState) (l : String)
    (hs : ∀ sh ∈ s.sheets, sh.rows ≠ []) :
    ∀ sh ∈ (processLine s l).sheets, sh.rows ≠ [] := by
  intro sh hsh
  unfold processLine processTrimmed at hsh
  split at hsh
  · exact hs sh hsh
  · split at hsh
    · split at hsh
      · exact flushSheet_rows_ne s hs sh hsh
      · exact flushSheet_rows_ne s hs sh hsh
    · split at hsh
      · exact hs sh hsh
      · split at hsh
        · exact hs sh hsh
        · split at hsh
          · exact hs sh hsh
          · split at hsh
            · exact hs sh hsh
            · exact hs sh hsh

theorem processLine_meta_station (s : ParseState) (l : String)
    (h : isStationLine l = false) :
    (processLine s l).meta.station = s.meta.station := by
  unfold isStationLine at h
  unfold processLine processTrimmed
  split
  · rfl
  · split
    · split
      · show (flushSheet s).meta.station = s.meta.station
        rw [flushSheet_meta]
      · show (flushSheet s).meta.station = s.meta.station
        rw [flushSheet_meta]
    · split
      · rename_i hc
        simp [h] at hc
      · split
        · rfl
        · split
          · rfl
          · split
            · rfl
            · rfl

theorem processLine_station_all (s : ParseState) (l : String)
    (h : isStationLine l = false) :
    (processLine s l).meta.station = s.meta.station ∧
      ∀ sh ∈ (processLine s l).sheets, sh ∈ s.sheets ∨ sh.meta.station = s.meta.station :=
  ⟨processLine_meta_station s l h, fun sh hsh => by
    rcases processLine_sheets s l sh hsh with h' | h'
    · exact Or.inl h'
    · exact Or.inr (by rw [h'])⟩

theorem foldl_rows_ne :
    ∀ (ls : List String) (s : ParseState), (∀ sh ∈ s.sheets, sh.rows ≠ []) →
      ∀ sh ∈ (ls.foldl processLine s).sheets, sh.rows ≠ []
  | [], _, hs => hs
  | l :: ls, s, hs => foldl_rows_ne ls (processLine s l) (processLine_rows_ne s l hs)

theorem foldl_station :
    ∀ (ls : List String) (s : ParseState), (∀ l ∈ ls, isStationLine l = false) →
      (ls.foldl processLine s).meta.station = s.meta.station ∧
        ∀ sh ∈ (ls.foldl processLine s).sheets,
          sh ∈ s.sheets ∨ sh.meta.station = s.meta.station
  | [], _, _ => ⟨rfl, fun _ hsh => Or.inl hsh⟩
  | l :: ls, s, h => by
    have h1 := processLine_station_all s l (h l (by simp))
    have h2 := foldl_station ls (processLine s l) (fun x hx => h x (by simp [hx]))
    rw [List.foldl_cons]
    constructor
    · rw [h2.1, h1.1]
    · intro sh hsh
      rcases h2.2 sh hsh with hin | hst
      · rcases h1.2 sh hin with hin' | hst'
        · exact Or.inl hin'
        · exact Or.inr hst'
      · exact Or.inr (hst.trans h1.1)

theorem expandMatch_nil (rid cable : String) (m : RangeMatch) (h : m.hi < m.lo) :
    expandMatch rid cable m = [] := by
  unfold expandMatch
  rw [show m.hi + 1 - m.lo = 0 by omega]
  rfl

theorem mem_expandMatch (rid cable : String) (m : RangeMatch) :
    ∀ r ∈ expandMatch rid cable m,
      r.rowId = rid ∧ r.cableDetail = cable ∧
        r.function = ofChars (upChars (trimChars m.label)) := by
  intro r hr
  obtain ⟨i, _, rfl⟩ := List.mem_map.mp hr
  exact ⟨rfl, rfl, rfl⟩

theorem lineRecords_eq_nil (line : List Char)
    (h : ∀ m ∈ findRanges (middleOf line), m.hi < m.lo) : lineRecords line = [] := by
  unfold lineRecords
  split
  · exact List.flatMap_eq_nil_iff.mpr fun m hm => expandMatch_nil _ _ m (h m hm)
  · rfl

theorem processLine_inert (s : ParseState) (l : String) (hd : isDirective l = false)
    (hr : lineRecords (trimChars l.data) = []) : processLine s l = s := by
  simp only [isDirective, Bool.or_eq_false_iff] at hd
  obtain ⟨⟨⟨⟨d1, d2⟩, d3⟩, d4⟩, d5⟩ := hd
  unfold processLine processTrimmed
  split
  · rfl
  · split
    · rename_i hc
      simp [d1] at hc
    · split
      · rename_i hc
        simp [d2] at hc
      · split
        · rename_i hc
          simp [d3] at hc
        · split
          · rename_i hc
            simp [d4] at hc
          · split
            · rename_i hc
              simp [d5] at hc
            · rw [hr, List.append_nil]

theorem parseLines_append_inert (pre post : List String) (l : String)
    (hd : isDirective l = false) (hr : lineRecords (trimChars l.data) = []) :
    parseLines (pre ++ l :: post) = parseLines (pre ++ post) := by
  unfold parseLines
  rw [List.foldl_append, List.foldl_append, List.foldl_cons, processLine_inert _ l hd hr]

theorem lineCable_ne_empty (parts : List (List Char)) (h : lineCable parts ≠ "") :
    3 ≤ parts.length ∧
      ∀ kw ∈ termKeywords, subOf kw (upChars (parts.getLastD [])) = false := by
  unfold lineCable at h
  split at h
  · rename_i hc
    rw [Bool.and_eq_true] at hc
    obtain ⟨hk, hl⟩ := hc
    refine ⟨by simpa using hl, ?_⟩
    intro kw hkw
    rw [Bool.not_eq_true'] at hk
    rw [List.any_eq_false] at hk
    simpa using hk kw hkw
  · exact absurd rfl h

theorem mem_lineRecords (line : List Char) (r : RowRecord) (hr : r ∈ lineRecords line) :
    r.cableDetail = lineCable (lineParts line) ∧ 2 ≤ (lineParts line).length := by
  unfold lineRecords at hr
  split at hr
  · rename_i hp
    obtain ⟨m, _, hm⟩ := List.mem_flatMap.mp hr
    exact ⟨(mem_expandMatch _ _ m r hm).2.1, hp⟩
  · exact absurd hr (List.not_mem_nil r)

/-- The slots-per-page-row constant evaluates to 30 on A3 landscape. -/
theorem term_per_row_eq : term_per_row = 30 := by
  have h : (⌊(pageWidth - infoX - SAFETY_OFFSET - 40) / FIXED_GAP⌋ : ℤ) = 30 := by
    apply Int.floor_eq_iff.mpr
    constructor <;> norm_num [pageWidth, infoX, PAGE_MARGIN, SAFETY_OFFSET, FIXED_GAP]
  unfold term_per_row
  rw [h]
  rfl

theorem chunksOf_two {α : Type} (m : ℕ) (l : List α) (h : l.length = m + 2) :
    (chunksOf (m + 1) l).map List.length = [m + 1, 1] := by
  cases l with
  | nil => simp at h
  | cons x t =>
    rw [chunksOf]
    have hd : ((x :: t).drop (m + 1)).length = 1 := by
      rw [List.length_drop, h]; omega
    have hd0 : (x :: t).drop (m + 1) ≠ [] := by
      intro he; rw [he] at hd; simp at hd
    rw [chunksOf_of_length_le m _ hd0 (by omega)]
    simp only [List.map_cons, List.map_nil, List.length_take, hd, h]
    congr 1
    omega

/-- Skipping characters without digits does not change the first digit run
(the `re.search(r'\d+', ...)` model scans to the first digit). -/
theorem firstDigitRun_skip :
    ∀ (pre rest : List Char), (∀ c ∈ pre, c.isDigit = false) →
      firstDigitRun (pre ++ rest) = firstDigitRun rest
  | [], _, _ => rfl
  | c :: pre, rest, h => by
    rw [List.cons_append, firstDigitRun, if_neg (by simp [h c (List.mem_cons_self c pre)])]
    exact firstDigitRun_skip pre rest fun x hx => h x (List.mem_cons_of_mem c hx)

/-!
## The claims
-/

/-- C1: for every row-specification line containing a label immediately
followed by a bracketed `[lo to hi]` range, the parser emits exactly one
record per integer in the inclusive range — record `k` carries terminal
number `zfill2 (lo + k)` — and every record of the match carries the
upper-cased, trimmed label; concretely, `A, LABEL[3 to 5], SPARE` parses to
exactly the three records `03`, `04`, `05` with function `LABEL`. -/
theorem c1_range_expansion :
    (∀ (rid cable : String) (m : RangeMatch), m.lo ≤ m.hi →
      (expandMatch rid cable m).length = m.hi + 1 - m.lo ∧
      ∀ (k : ℕ) (hk : k < (expandMatch rid cable m).length),
        (expandMatch rid cable m).get ⟨k, hk⟩ =
          ⟨rid, ofChars (upChars (trimChars m.label)), cable, zfill2 (m.lo + k)⟩) ∧
    parse_multi_sheet_txt "A, LABEL[3 to 5], SPARE" =
      [⟨initMeta, [⟨"A", "LABEL", "", "03"⟩, ⟨"A", "LABEL", "", "04"⟩,
        ⟨"A", "LABEL", "", "05"⟩]⟩] := by
  constructor
  · intro rid cable m _
    constructor
    · unfold expandMatch
      rw [List.length_map, List.length_range']
    · intro k hk
      unfold expandMatch
      simp only [List.get_eq_getElem, List.getElem_map, List.getElem_range', one_mul]
  · decide

/-- Witness for C1 at the concrete match `LABEL[3 to 5]`. -/
theorem c1_range_expansion_witness :
    (3 : ℕ) ≤ 5 ∧ (expandMatch "A" "" ⟨"LABEL".data, 3, 5⟩).length = 3 :=
  ⟨by decide, by
    have h := (c1_range_expansion.1 "A" "" ⟨"LABEL".data, 3, 5⟩ (by decide)).1
    simpa using h⟩

/-- C2 counterexample: `STATION: KUR` declared before sheet 1 and never
redeclared in sheet 2 nevertheless shows up in sheet 2's parsed metadata —
the claimed sheet isolation does not hold. -/
theorem c2_counterexample :
    (parse_multi_sheet_txt
        "STATION: KUR\nSHEET: 1\nA, F [1 to 1]\nSHEET: 2\nB, G [1 to 1]").map
        (fun sh => (sh.meta.sheet, sh.meta.station)) = [(1, "KUR"), (2, "KUR")] := by
  decide

/-- C2 amended: metadata persists across SHEET boundaries — the aggregator
never resets it.  Every sheet finalized while no `STATION:` line appears
carries the station value current at the start of that suffix (finalized
sheets are snapshots, so later lines cannot change them). -/
theorem c2_metadata_carry_forward (pre body : List String)
    (hb : ∀ l ∈ body, isStationLine l = false) :
    ∀ sh ∈ parseLines (pre ++ body),
      sh ∈ (pre.foldl processLine initState).sheets ∨
        sh.meta.station = (pre.foldl processLine initState).meta.station := by
  intro sh hsh
  unfold parseLines at hsh
  rw [List.foldl_append] at hsh
  have hf := foldl_station body (pre.foldl processLine initState) hb
  rcases flushSheet_sheets _ sh hsh with h | h
  · exact hf.2 sh h
  · exact Or.inr (by rw [h, hf.1])

/-- Witness for C2: sheet 2 of the counterexample input indeed carries the
sheet-1 station. -/
theorem c2_metadata_carry_forward_witness :
    (⟨⟨2, "KUR", "", "", "TERMINAL CHART"⟩, [⟨"B", "G", "", "01"⟩]⟩ : SheetData) ∈
        ((["STATION: KUR", "SHEET: 1", "A, F [1 to 1]"] : List String).foldl
          processLine initState).sheets ∨
      (⟨⟨2, "KUR", "", "", "TERMINAL CHART"⟩,
          [⟨"B", "G", "", "01"⟩]⟩ : SheetData).meta.station =
        ((["STATION: KUR", "SHEET: 1", "A, F [1 to 1]"] : List String).foldl
          processLine initState).meta.station :=
  c2_metadata_carry_forward ["STATION: KUR", "SHEET: 1", "A, F [1 to 1]"]
    ["SHEET: 2", "B, G [1 to 1]"] (by decide) _ (by decide)

/-- C3 counterexample: two equal-label runs separated by an empty-label entry
produce TWO bracket groups, not one — an empty label does close the current
group early. -/
theorem c3_counterexample :
    bracketGroups 0 ["HR", "", "HR"] = [(0, 0, "HR"), (2, 2, "HR")] ∧
    (bracketGroups 0 ["HR", "", "HR"]).length = 2 := by
  have h := bracketGroups_two_runs "HR" (by decide) 0 0 0
  rw [show ofChars (normLabel "HR") = "HR" from by decide] at h
  have h1 : bracketGroups 0 ["HR", "", "HR"] = [(0, 0, "HR"), (2, 2, "HR")] := h
  exact ⟨h1, by rw [h1]; rfl⟩

/-- C3 amended: consecutive entries with equal non-empty normalised labels
merge into a single bracket group, but an empty-label entry terminates the
current group: a run of `k₁+1` equal labels, an empty entry, and a run of
`k₂+1` equal labels yield exactly two groups (the empty entry itself emits no
group and its index is skipped). -/
theorem c3_empty_label_closes_group :
    (∀ (a : String) (i k : ℕ), normLabel a ≠ [] →
      bracketGroups i (List.replicate (k + 1) a) = [(i, i + k, ofChars (normLabel a))]) ∧
    (∀ (a : String) (i k₁ k₂ : ℕ), normLabel a ≠ [] →
      bracketGroups i (List.replicate (k₁ + 1) a ++ "" :: List.replicate (k₂ + 1) a) =
        [(i, i + k₁, ofChars (normLabel a)),
         (i + k₁ + 2, i + k₁ + 2 + k₂, ofChars (normLabel a))]) :=
  ⟨fun a i k ht => bracketGroups_replicate a ht i k,
   fun a i k₁ k₂ ht => bracketGroups_two_runs a ht i k₁ k₂⟩

/-- Witness for C3: a run of three `SP` labels merges into one group. -/
theorem c3_empty_label_closes_group_witness :
    normLabel "SP" ≠ [] ∧ bracketGroups 5 (List.replicate 3 "SP") = [(5, 7, "SP")] :=
  ⟨by decide, by
    have h := c3_empty_label_closes_group.1 "SP" 5 2 (by decide)
    rw [show ofChars (normLabel "SP") = "SP" from by decide] at h
    exact h⟩

/-- C4 counterexample: the sheet opened by `SHEET: 2` accumulates no rows and
is silently dropped — the parse result contains only sheet 1, so an empty
sheet is neither appended nor rendered as a template-only page. -/
theorem c4_counterexample :
    (parse_multi_sheet_txt "SHEET: 1\nA, F [1 to 2]\nSHEET: 2").map
        (fun sh => sh.meta.sheet) = [1] ∧
    (parse_multi_sheet_txt "SHEET: 1\nA, F [1 to 2]\nSHEET: 2").length = 1 := by
  constructor <;> decide

/-- C4 amended: a sheet is finalized (appended to the output list) only when
it has accumulated at least one row; a sheet with no rows is silently dropped
at the boundary or at end of input, so every parsed sheet has a non-empty row
list and no template-only page is ever produced for an empty sheet. -/
theorem c4_empty_sheet_dropped (raw : String) :
    ∀ sh ∈ parse_multi_sheet_txt raw, sh.rows ≠ [] := by
  intro sh hsh
  unfold parse_multi_sheet_txt parseLines at hsh
  refine flushSheet_rows_ne _ (foldl_rows_ne _ initState ?_) sh hsh
  intro sh' h
  exact absurd h (List.not_mem_nil sh')

/-- Witness for C4: the single sheet of a one-row input has non-empty rows. -/
theorem c4_empty_sheet_dropped_witness :
    (⟨⟨1, "", "", "", "TERMINAL CHART"⟩, [⟨"A", "F", "", "01"⟩]⟩ : SheetData) ∈
        parse_multi_sheet_txt "SHEET: 1\nA, F [1 to 1]" ∧
    (⟨⟨1, "", "", "", "TERMINAL CHART"⟩, [⟨"A", "F", "", "01"⟩]⟩ : SheetData).rows ≠ [] :=
  ⟨by decide,
   c4_empty_sheet_dropped "SHEET: 1\nA, F [1 to 1]"
     ⟨⟨1, "", "", "", "TERMINAL CHART"⟩, [⟨"A", "F", "", "01"⟩]⟩ (by decide)⟩

/-- C5: the slots-per-page-row constant is 30; a row with `N+1` terminals is
chunked into exactly two chunks of lengths `N` and `1`; in general the chunks
concatenate back to the row, every chunk is non-empty of length at most `N`,
and all chunks except possibly the last have length exactly `N`. -/
theorem c5_pagination_chunks :
    term_per_row = 30 ∧
    (∀ l : List RowRecord, l.length = term_per_row + 1 →
      (chunksOf term_per_row l).map List.length = [term_per_row, 1]) ∧
    (∀ l : List RowRecord,
      (chunksOf term_per_row l).flatten = l ∧
      (∀ c ∈ chunksOf term_per_row l, c ≠ [] ∧ c.length ≤ term_per_row) ∧
      (∀ c ∈ (chunksOf term_per_row l).dropLast, c.length = term_per_row)) := by
  refine ⟨term_per_row_eq, ?_, ?_⟩
  · intro l hl
    rw [term_per_row_eq] at hl ⊢
    exact chunksOf_two 29 l hl
  · intro l
    rw [term_per_row_eq]
    exact ⟨chunksOf_flatten 30 l (by decide), fun c hc => mem_chunksOf 30 l c hc,
      fun c hc => dropLast_chunksOf 30 l c hc⟩

/-- Witness for C5 on a concrete 31-terminal row. -/
theorem c5_pagination_chunks_witness :
    (List.replicate 31 (⟨"A", "F", "", "01"⟩ : RowRecord)).length = term_per_row + 1 ∧
    (chunksOf term_per_row (List.replicate 31 (⟨"A", "F", "", "01"⟩ : RowRecord))).map
        List.length = [term_per_row, 1] := by
  have hl : (List.replicate 31 (⟨"A", "F", "", "01"⟩ : RowRecord)).length =
      term_per_row + 1 := by
    rw [term_per_row_eq]
    simp
  exact ⟨hl, c5_pagination_chunks.2.1 _ hl⟩

/-- C6: the page layout never draws more than 6 row-chunks on one page — in
the final layout state of any sheet, every page (closed pages and the final
flushed page alike) holds at most 6 chunks — and the rendered sheet number
equals the starting sheet number plus the number of page breaks emitted. -/
theorem c6_page_row_bound (sn : ℕ) (chunks : List (List RowRecord)) :
    (∀ p ∈ sheetPages (renderSheetChunks sn chunks), p.length ≤ 6) ∧
    (renderSheetChunks sn chunks).sheetNo =
      sn + (renderSheetChunks sn chunks).donePages.length := by
  have h := foldl_stepChunk_inv sn chunks (initLayout sn)
    ⟨rfl, by simp [initLayout], by simp [initLayout], rfl⟩
  unfold renderSheetChunks
  obtain ⟨_, h2, h3, h4⟩ := h
  refine ⟨?_, h4⟩
  intro p hp
  unfold sheetPages at hp
  rcases List.mem_append.mp hp with hp | hp
  · exact h3 p hp
  · rw [List.mem_singleton.mp hp]
    exact h2

/-- Witness for C6: the final page of a 13-chunk sheet holds at most 6
chunks. -/
theorem c6_page_row_bound_witness :
    (renderSheetChunks 1 (List.replicate 13 ([] : List RowRecord))).curPage ∈
        sheetPages (renderSheetChunks 1 (List.replicate 13 ([] : List RowRecord))) ∧
    (renderSheetChunks 1 (List.replicate 13 ([] : List RowRecord))).curPage.length ≤ 6 :=
  ⟨by simp [sheetPages],
   (c6_page_row_bound 1 (List.replicate 13 ([] : List RowRecord))).1
     (renderSheetChunks 1 (List.replicate 13 ([] : List RowRecord))).curPage
     (by simp [sheetPages])⟩

/-- C7 counterexample: after `SHEET: 5`, a digitless `SHEET:` line keeps the
current sheet number 5 — it does not default to 1 as claimed. -/
theorem c7_counterexample :
    (parse_multi_sheet_txt "SHEET: 5\nA, F [1 to 1]\nSHEET:\nB, G [1 to 1]").map
        (fun sh => sh.meta.sheet) = [5, 5] := by
  decide

/-- C7 amended: on a `SHEET:` line, the first run of digits in the (stripped)
line becomes the new current sheet number; when the line contains no digits
the current sheet number is left unchanged (it is 1 only initially); the
other metadata fields are untouched; and the digit search skips any prefix
without digits. -/
theorem c7_sheet_number_update (s : ParseState) (l : String)
    (h : "SHEET:".data.isPrefixOf (upChars (trimChars l.data)) = true) :
    ((processLine s l).meta.sheet =
        (firstDigitRun (trimChars l.data)).getD s.meta.sheet ∧
      (processLine s l).meta.station = s.meta.station ∧
      (processLine s l).meta.location = s.meta.location ∧
      (processLine s l).meta.sip = s.meta.sip ∧
      (processLine s l).meta.heading = s.meta.heading) ∧
    ∀ (pre rest : List Char), (∀ c ∈ pre, c.isDigit = false) →
      firstDigitRun (pre ++ rest) = firstDigitRun rest := by
  refine ⟨?_, firstDigitRun_skip⟩
  have hne : (trimChars l.data).isEmpty = false := by
    cases hn : trimChars l.data with
    | nil =>
      rw [hn] at h
      exact absurd h (by decide)
    | cons c cs => rfl
  unfold processLine processTrimmed
  rw [if_neg (by simp [hne]), if_pos h]
  cases hd : firstDigitRun (trimChars l.data) with
  | some n =>
    refine ⟨rfl, ?_, ?_, ?_, ?_⟩
    · show (flushSheet s).meta.station = s.meta.station
      rw [flushSheet_meta]
    · show (flushSheet s).meta.location = s.meta.location
      rw [flushSheet_meta]
    · show (flushSheet s).meta.sip = s.meta.sip
      rw [flushSheet_meta]
    · show (flushSheet s).meta.heading = s.meta.heading
      rw [flushSheet_meta]
  | none =>
    refine ⟨?_, ?_, ?_, ?_, ?_⟩ <;> simp [flushSheet_meta]

/-- Witness for C7: a digitless `SHEET:` line leaves the initial sheet
number 1 unchanged. -/
theorem c7_sheet_number_update_witness :
    ("SHEET:".data.isPrefixOf (upChars (trimChars ("SHEET:" : String).data)) = true) ∧
    (processLine initState "SHEET:").meta.sheet = 1 :=
  ⟨by decide, by
    have h := ((c7_sheet_number_update initState "SHEET:" (by decide)).1).1
    rw [show firstDigitRun (trimChars ("SHEET:" : String).data) = none from by decide] at h
    exact h⟩

/-- C8 counterexample: a sheet whose records violate the
`(rowId, numericTerminal)` order renders exactly like its sorted permutation
— the implementation sorts before grouping, so no silent mis-rendering
occurs on this violating input. -/
theorem c8_counterexample :
    renderedSheet initMeta [⟨"A", "F", "X", "02"⟩, ⟨"A", "G", "Y", "01"⟩] =
      renderedSheet initMeta [⟨"A", "G", "Y", "01"⟩, ⟨"A", "F", "X", "02"⟩] ∧
    ([⟨"A", "F", "X", "02"⟩, ⟨"A", "G", "Y", "01"⟩] : List RowRecord) ≠
      [⟨"A", "G", "Y", "01"⟩, ⟨"A", "F", "X", "02"⟩] := by
  have h : sortRows [⟨"A", "F", "X", "02"⟩, ⟨"A", "G", "Y", "01"⟩] =
      sortRows [⟨"A", "G", "Y", "01"⟩, ⟨"A", "F", "X", "02"⟩] := by decide
  constructor
  · unfold renderedSheet sheetChunks
    rw [h]
  · decide

/-- C8 amended: sorting by `(rowId, numericTerminal)` ascending IS enforced
by the implementation — `process_multi_sheet_pdf` sorts each sheet's records
(lines 155-156) before the Grouper and Layout Engine run — so the sorted
order is an established invariant, not a caller pre-condition, and rendering
any sheet equals rendering its pre-sorted permutation. -/
theorem c8_sorting_enforced :
    (∀ rows : List RowRecord, List.Sorted rowLe (sortRows rows)) ∧
    (∀ (m : MetaData) (rows : List RowRecord),
      renderedSheet m rows = renderedSheet m (sortRows rows)) :=
  ⟨sortRows_sorted, fun m rows => by
    unfold renderedSheet sheetChunks
    rw [sortRows_idem]⟩

/-- C9: a malformed range emits no record and parsing the remaining lines is
unaffected: an inverted range `[hi < lo]` expands to nothing; a
row-specification line all of whose range matches are inverted (which
includes lines whose bounds fail to parse, since those produce no matches at
all) leaves the parse state untouched; deleting such a line from the input
does not change the parse result.  The embedding is a total function, so no
exception is ever raised. -/
theorem c9_malformed_range_dropped :
    (∀ (rid cable : String) (m : RangeMatch), m.hi < m.lo →
      expandMatch rid cable m = []) ∧
    (∀ (s : ParseState) (l : String), isDirective l = false →
      (∀ m ∈ findRanges (middleOf (trimChars l.data)), m.hi < m.lo) →
      processLine s l = s) ∧
    (∀ (pre post : List String) (l : String), isDirective l = false →
      (∀ m ∈ findRanges (middleOf (trimChars l.data)), m.hi < m.lo) →
      parseLines (pre ++ l :: post) = parseLines (pre ++ post)) := by
  refine ⟨expandMatch_nil, ?_, ?_⟩
  · intro s l hd hm
    exact processLine_inert s l hd (lineRecords_eq_nil _ hm)
  · intro pre post l hd hm
    exact parseLines_append_inert pre post l hd (lineRecords_eq_nil _ hm)

/-- Witness for C9: the inverted range `G [5 to 3]` contributes nothing and
its line can be removed without changing the result. -/
theorem c9_malformed_range_dropped_witness :
    isDirective "B, G [5 to 3], SPARE" = false ∧
    parseLines (["A, F [1 to 1]"] ++ "B, G [5 to 3], SPARE" :: ["C, H [2 to 2]"]) =
      parseLines (["A, F [1 to 1]"] ++ ["C, H [2 to 2]"]) :=
  ⟨by decide,
   c9_malformed_range_dropped.2.2 ["A, F [1 to 1]"] ["C, H [2 to 2]"]
     "B, G [5 to 3], SPARE" (by decide) (by decide)⟩

/-- C10: a record carries a non-empty cable detail only when its line has at
least three comma-parts and no keyword of the fixed set occurs as a substring
of the upper-cased last part; a two-part line always yields empty cable
details; and the keyword test is substring containment, not equality —
`CRISP` contains `SP`, so a line ending in `CRISP` yields empty cable
details. -/
theorem c10_cable_detail_policy :
    (∀ (line : List Char) (r : RowRecord), r ∈ lineRecords line → r.cableDetail ≠ "" →
      3 ≤ (lineParts line).length ∧
      ∀ kw ∈ termKeywords, subOf kw (upChars ((lineParts line).getLastD [])) = false) ∧
    (∀ line : List Char, (lineParts line).length = 2 →
      ∀ r ∈ lineRecords line, r.cableDetail = "") ∧
    (∀ r ∈ lineRecords ("A, F [1 to 2], CRISP" : String).data, r.cableDetail = "") ∧
    subOf "SP".data "CRISP".data = true := by
  refine ⟨?_, ?_, by decide, by decide⟩
  · intro line r hr hc
    have h := mem_lineRecords line r hr
    rw [h.1] at hc
    exact lineCable_ne_empty _ hc
  · intro line h2 r hr
    rw [(mem_lineRecords line r hr).1]
    simp [lineCable, h2]

/-- Witness for C10: a two-part line yields a record with empty cable
detail. -/
theorem c10_cable_detail_policy_witness :
    (lineParts ("A, F [1 to 2]" : String).data).length = 2 ∧
    (⟨"A", "F", "", "01"⟩ : RowRecord) ∈ lineRecords ("A, F [1 to 2]" : String).data ∧
    (⟨"A", "F", "", "01"⟩ : RowRecord).cableDetail = "" :=
  ⟨by decide, by decide,
   c10_cable_detail_policy.2.1 ("A, F [1 to 2]" : String).data (by decide)
     ⟨"A", "F", "", "01"⟩ (by decide)⟩

end App
